import Mathlib

/-!
A shallow embedding of the Win16-to-Win32 portability shim header
port1632.h from the WinMine sources, together with proofs of the
properties its specification states.

The preprocessor content of the header is modelled as an operation on an
association-list environment of defined names.  The macro bodies whose
behaviour the specification describes are modelled as Lean functions:
the min and max ternaries over Int, the entry-point macro as a token-list
expansion, the memory aliases over a byte-addressed memory, and the
MMoveTo inline wrapper over a device-context state.
-/

namespace Port1632

/-! ### Preprocessor environment -/

/-- A preprocessor environment: an association list from defined names to
their replacement text.  Earlier entries shadow later ones. -/
abbrev Env := List (String × String)

/-- Look up the definition of a name in the environment. -/
def lookupDef : Env → String → Option String
  | [], _ => none
  | (m, b) :: e, n => if n = m then some b else lookupDef e n

/-- Behaviour of a definition wrapped in an if-not-defined guard, as used
for every macro binding of the header: when the name is already bound the
environment is unchanged, so the first definition wins. -/
def defineIfAbsent (env : Env) (n b : String) : Env :=
  if (lookupDef env n).isSome then env else (n, b) :: env

/-- Behaviour of an unguarded definition, as for the inline function
MMoveTo: a redefinition in the same translation unit is an error,
modelled as none. -/
def defineStrict (env : Env) (n b : String) : Option Env :=
  if (lookupDef env n).isSome then none else some ((n, b) :: env)

/-- The seven guarded macro definitions of the header, in source order:
the entry-point macro, the two memory-primitive aliases, the two
calling-convention aliases, and the two extremum macros. -/
def shimMacroDefs : List (String × String) :=
  [("MMain", "WinMain entry header"),
   ("hmemcpy", "memcpy"),
   ("hmemset", "memset"),
   ("EXPENTRY", "WINAPI"),
   ("WINAPI16", "CALLBACK"),
   ("max", "greater-of-two ternary"),
   ("min", "smaller-of-two ternary")]

/-- The names of the seven guarded bindings the shim introduces. -/
def shimGuardedNames : List String := shimMacroDefs.map Prod.fst

/-- Replacement text recorded for the unguarded inline function. -/
def mmoveToBody : String := "inline cursor-move wrapper"

/-- Install the seven guarded macro definitions in source order. -/
def installGuarded (env : Env) : Env :=
  shimMacroDefs.foldl (fun e p => defineIfAbsent e p.1 p.2) env

/-- Process one inclusion of the header: if the inclusion-guard name
PORT1632_STUB_H is already defined the whole body is skipped; otherwise
the guard name is defined, the seven guarded macros are installed, and
the unguarded inline function MMoveTo is defined. -/
def includeShim (env : Env) : Option Env :=
  if (lookupDef env "PORT1632_STUB_H").isSome then some env
  else
    defineStrict (installGuarded (("PORT1632_STUB_H", "") :: env))
      "MMoveTo" mmoveToBody

/-! ### Token model of the entry-point macro expansion -/

/-- C-level tokens, as far as the entry-point macro needs them. -/
inductive Tok where
  | kw : String → Tok
  | ident : String → Tok
  | lparen : Tok
  | rparen : Tok
  | comma : Tok
  | lbrace : Tok
  | rbrace : Tok
deriving DecidableEq

/-- Translated from the source: the expansion of
MMain(hInstance, hPrevInstance, lpCmdLine, nCmdShow), with the four
macro arguments as parameter names.  It is the WinMain header followed
by a single opening brace and nothing more. -/
def MMainExpansion (h p l n : String) : List Tok :=
  [Tok.kw "int", Tok.kw "APIENTRY", Tok.ident "WinMain", Tok.lparen,
   Tok.kw "HINSTANCE", Tok.ident h, Tok.comma,
   Tok.kw "HINSTANCE", Tok.ident p, Tok.comma,
   Tok.kw "LPSTR", Tok.ident l, Tok.comma,
   Tok.kw "int", Tok.ident n, Tok.rparen,
   Tok.lbrace]

/-- Modelled from the spec: the modern entry-point declaration the spec
describes, with integer return type, the modern entry-point name, and
parameter types instance handle, instance handle, string pointer,
integer, in that order. -/
def winMainDeclTokens (h p l n : String) : List Tok :=
  [Tok.kw "int", Tok.kw "APIENTRY", Tok.ident "WinMain", Tok.lparen,
   Tok.kw "HINSTANCE", Tok.ident h, Tok.comma,
   Tok.kw "HINSTANCE", Tok.ident p, Tok.comma,
   Tok.kw "LPSTR", Tok.ident l, Tok.comma,
   Tok.kw "int", Tok.ident n, Tok.rparen]

/-- Recogniser for an opening brace token. -/
def isLbrace : Tok → Bool
  | Tok.lbrace => true
  | _ => false

/-- Recogniser for a closing brace token. -/
def isRbrace : Tok → Bool
  | Tok.rbrace => true
  | _ => false

/-- Number of opening braces in a token list. -/
def openCount (ts : List Tok) : Nat := (ts.filter isLbrace).length

/-- Number of closing braces in a token list. -/
def closeCount (ts : List Tok) : Nat := (ts.filter isRbrace).length

/-- A token list has balanced braces when it has as many opening as
closing braces. -/
def balancedBraces (ts : List Tok) : Prop := openCount ts = closeCount ts

instance decBalancedBraces (ts : List Tok) : Decidable (balancedBraces ts) :=
  Nat.decEq (openCount ts) (closeCount ts)

/-! ### Memory primitives and their aliases -/

/-- A byte-addressed memory. -/
abbrev Mem := Nat → Nat

/-- Modelled from the spec: the standard memory-copy primitive of the C
runtime, which is not part of this repository slice.  It copies len
bytes from address src to address dest and returns dest. -/
def memcpy (m : Mem) (dest src len : Nat) : Mem × Nat :=
  (fun a => if dest ≤ a ∧ a < dest + len then m (src + (a - dest)) else m a, dest)

/-- Modelled from the spec: the standard memory-fill primitive of the C
runtime, which is not part of this repository slice.  It sets len bytes
starting at address dest to the fill byte and returns dest. -/
def memset (m : Mem) (dest fill len : Nat) : Mem × Nat :=
  (fun a => if dest ≤ a ∧ a < dest + len then fill else m a, dest)

/-- Translated from the source: hmemcpy is defined as memcpy. -/
def hmemcpy : Mem → Nat → Nat → Nat → Mem × Nat := memcpy

/-- Translated from the source: hmemset is defined as memset. -/
def hmemset : Mem → Nat → Nat → Nat → Mem × Nat := memset

/-! ### Calling-convention aliases -/

/-- The calling conventions of the host platform. -/
inductive CallConv where
  | stdcall : CallConv
  | cdecl : CallConv
deriving DecidableEq

/-- Modelled from the spec: windows.h is outside this repository slice;
per the spec, WINAPI names the modern callback calling convention. -/
def WINAPI : CallConv := CallConv.stdcall

/-- Modelled from the spec: windows.h is outside this repository slice;
per the spec, CALLBACK names the modern callback calling convention. -/
def CALLBACK : CallConv := CallConv.stdcall

/-- Translated from the source: EXPENTRY is defined as WINAPI. -/
def EXPENTRY : CallConv := WINAPI

/-- Translated from the source: WINAPI16 is defined as CALLBACK. -/
def WINAPI16 : CallConv := CALLBACK

/-- A function declaration, reduced to its calling convention and a tag
standing for the rest of its signature. -/
structure FnDecl where
  conv : CallConv
  sig : Nat
deriving DecidableEq

/-! ### The min and max macros -/

/-- Translated from the source: the max macro is the ternary selecting
the first argument exactly when it is strictly greater. -/
def max (a b : Int) : Int := if a > b then a else b

/-- Translated from the source: the min macro is the ternary selecting
the first argument exactly when it is strictly smaller. -/
def min (a b : Int) : Int := if a < b then a else b

/-! ### The MMoveTo wrapper -/

/-- A point structure, as the POINT out-parameter of the primitive. -/
structure POINT where
  x : Int
  y : Int
deriving DecidableEq

/-- The state of a drawing surface: its current position and its other
components, here a pen and a brush. -/
structure DCState where
  pos : POINT
  pen : Nat
  brush : Nat
deriving DecidableEq

/-- What one call of the cursor-position-update primitive produces: the
updated surface state, the point written through the out-pointer, and
the result code. -/
structure MoveToExResult where
  dc : DCState
  ptOut : POINT
  code : Int
deriving DecidableEq

/-- Modelled from the spec: the cursor-position-update primitive of the
host graphics subsystem, which is not part of this repository slice.
It moves the drawing cursor to the target coordinates, writes the
previous position through the out-pointer, and returns a result code;
the code the host produces on the call is supplied as a parameter. -/
def MoveToEx (dc : DCState) (x y : Int) (code : Int) : MoveToExResult :=
  { dc := { dc with pos := { x := x, y := y } }, ptOut := dc.pos, code := code }

/-- Translated from the source: MMoveTo declares a stack-local POINT,
invokes MoveToEx with the surface handle, the coordinates and a pointer
to that local, and returns the result of MoveToEx; the value written
into the local is discarded. -/
def MMoveTo (hdc : DCState) (x y : Int) (code : Int) : DCState × Int :=
  let r := MoveToEx hdc x y code
  (r.dc, r.code)

/-- The environment produced by including the header once in an empty
translation unit. -/
def envAfterFirst : Env := (includeShim []).getD []

/-- The environment produced by including the header in a translation
unit that already defines the name max. -/
def envAfterWithMax : Env := (includeShim [("max", "prior")]).getD []

/-! ### Helper lemmas -/

theorem lookupDef_defineIfAbsent_isSome (env : Env) (n m b : String)
    (h : (lookupDef env n).isSome = true) :
    (lookupDef (defineIfAbsent env m b) n).isSome = true := by
  unfold defineIfAbsent
  split
  · exact h
  · show (lookupDef ((m, b) :: env) n).isSome = true
    simp only [lookupDef]
    split
    · rfl
    · exact h

theorem lookupDef_foldl_isSome (l : List (String × String)) (env : Env) (n : String)
    (h : (lookupDef env n).isSome = true) :
    (lookupDef (l.foldl (fun e p => defineIfAbsent e p.1 p.2) env) n).isSome = true := by
  induction l generalizing env with
  | nil => exact h
  | cons p l ih => exact ih _ (lookupDef_defineIfAbsent_isSome _ _ _ _ h)

theorem lookupDef_defineIfAbsent_preserve (env : Env) (n m b c : String)
    (h : lookupDef env n = some c) :
    lookupDef (defineIfAbsent env m b) n = some c := by
  unfold defineIfAbsent
  split
  · exact h
  · rename_i hm
    show lookupDef ((m, b) :: env) n = some c
    simp only [lookupDef]
    split
    · rename_i hnm
      subst hnm
      rw [h] at hm
      simp at hm
    · exact h

theorem lookupDef_foldl_preserve (l : List (String × String)) (env : Env) (n c : String)
    (h : lookupDef env n = some c) :
    lookupDef (l.foldl (fun e p => defineIfAbsent e p.1 p.2) env) n = some c := by
  induction l generalizing env with
  | nil => exact h
  | cons p l ih => exact ih _ (lookupDef_defineIfAbsent_preserve _ _ _ _ _ h)

theorem lookupDef_includeShim_preserve (env e : Env) (n b : String)
    (hn1 : n ≠ "MMoveTo") (hn2 : n ≠ "PORT1632_STUB_H")
    (hrun : includeShim env = some e) (hdef : lookupDef env n = some b) :
    lookupDef e n = some b := by
  unfold includeShim at hrun
  split at hrun
  · obtain rfl := Option.some.inj hrun
    exact hdef
  · unfold defineStrict at hrun
    split at hrun
    · exact Option.noConfusion hrun
    · obtain rfl := Option.some.inj hrun
      simp only [lookupDef]
      rw [if_neg hn1]
      exact lookupDef_foldl_preserve shimMacroDefs (("PORT1632_STUB_H", "") :: env) n b
        (by simp only [lookupDef]; rw [if_neg hn2]; exact hdef)

theorem openCount_append (a b : List Tok) :
    openCount (a ++ b) = openCount a + openCount b := by
  simp [openCount, List.filter_append]

theorem closeCount_append (a b : List Tok) :
    closeCount (a ++ b) = closeCount a + closeCount b := by
  simp [closeCount, List.filter_append]

/-! ### The claims -/

/-- C1: for every drawing surface, coordinates and primitive result code,
MMoveTo hands the surface and the coordinates to MoveToEx, its state
effect is exactly the state effect of MoveToEx, the drawing cursor ends
at the target coordinates, and the returned value is exactly the result
code MoveToEx produced, unchanged. -/
theorem MMoveTo_forwards_MoveToEx (hdc : DCState) (x y code : Int) :
    (MMoveTo hdc x y code).1 = (MoveToEx hdc x y code).dc ∧
    (MMoveTo hdc x y code).1.pos = { x := x, y := y } ∧
    (MMoveTo hdc x y code).2 = (MoveToEx hdc x y code).code ∧
    (MMoveTo hdc x y code).2 = code :=
  ⟨rfl, rfl, rfl, rfl⟩

/-- C2: the export-convention alias EXPENTRY and the 16-bit
callback-convention alias WINAPI16 denote the same modern callback
calling convention, so a declaration using one is identical to the same
declaration using the other. -/
theorem EXPENTRY_WINAPI16_interchangeable :
    EXPENTRY = WINAPI16 ∧ EXPENTRY = WINAPI ∧ WINAPI16 = CALLBACK ∧
    ∀ sig : Nat, FnDecl.mk EXPENTRY sig = FnDecl.mk WINAPI16 sig :=
  ⟨rfl, rfl, rfl, fun _ => rfl⟩

/-- C3: for all integers, the max macro evaluates to the larger and the
min macro to the smaller of its two arguments, agreeing with the
mathematical extremum operations; in particular on equal arguments each
returns the shared value. -/
theorem min_max_correct (a b : Int) :
    Port1632.max a b = Max.max a b ∧ Port1632.min a b = Min.min a b := by
  constructor
  · unfold Port1632.max
    rw [max_def]
    split_ifs <;> omega
  · unfold Port1632.min
    rw [min_def]
    split_ifs <;> omega

/-- C4: every guarded binding the shim introduces respects a
pre-existing definition: if a name among the seven guarded names is
already defined when the header is processed, its definition after
processing is the pre-existing one, unchanged. -/
theorem shim_first_definition_wins (env e : Env) (n b : String)
    (hrun : includeShim env = some e) (hmem : n ∈ shimGuardedNames)
    (hdef : lookupDef env n = some b) :
    lookupDef e n = some b := by
  have hn : n ≠ "MMoveTo" ∧ n ≠ "PORT1632_STUB_H" := by
    simp only [shimGuardedNames, shimMacroDefs, List.map, List.mem_cons,
      List.not_mem_nil, or_false] at hmem
    rcases hmem with rfl | rfl | rfl | rfl | rfl | rfl | rfl <;> exact ⟨by decide, by decide⟩
  exact lookupDef_includeShim_preserve env e n b hn.1 hn.2 hrun hdef

/-- C5: expanding the entry-point macro with any four argument names
yields the modern WinMain declaration followed by a single opening brace
and nothing more; the expansion contains no closing brace, so appending
a brace-balanced body leaves the text unbalanced, and only the call site
supplying one further closing brace balances it. -/
theorem MMain_expansion_shape (h p l n : String) (body : List Tok)
    (hb : balancedBraces body) :
    MMainExpansion h p l n = winMainDeclTokens h p l n ++ [Tok.lbrace] ∧
    (MMainExpansion h p l n).getLast? = some Tok.lbrace ∧
    openCount (MMainExpansion h p l n) = 1 ∧
    closeCount (MMainExpansion h p l n) = 0 ∧
    ¬ balancedBraces (MMainExpansion h p l n ++ body) ∧
    balancedBraces (MMainExpansion h p l n ++ body ++ [Tok.rbrace]) := by
  have ho : openCount (MMainExpansion h p l n) = 1 := rfl
  have hc : closeCount (MMainExpansion h p l n) = 0 := rfl
  have ho1 : openCount [Tok.rbrace] = 0 := rfl
  have hc1 : closeCount [Tok.rbrace] = 1 := rfl
  unfold balancedBraces at hb
  refine ⟨rfl, rfl, ho, hc, ?_, ?_⟩
  · intro hbal
    unfold balancedBraces at hbal
    rw [openCount_append, closeCount_append, ho, hc] at hbal
    omega
  · unfold balancedBraces
    rw [openCount_append, closeCount_append, openCount_append, closeCount_append,
      ho, hc, ho1, hc1]
    omega

theorem MMain_expansion_shape_witness :
    balancedBraces ([] : List Tok) ∧
    (MMainExpansion "hInst" "hPrev" "lpCmd" "nShow"
        = winMainDeclTokens "hInst" "hPrev" "lpCmd" "nShow" ++ [Tok.lbrace] ∧
      (MMainExpansion "hInst" "hPrev" "lpCmd" "nShow").getLast? = some Tok.lbrace ∧
      openCount (MMainExpansion "hInst" "hPrev" "lpCmd" "nShow") = 1 ∧
      closeCount (MMainExpansion "hInst" "hPrev" "lpCmd" "nShow") = 0 ∧
      ¬ balancedBraces (MMainExpansion "hInst" "hPrev" "lpCmd" "nShow" ++ []) ∧
      balancedBraces (MMainExpansion "hInst" "hPrev" "lpCmd" "nShow" ++ [] ++ [Tok.rbrace])) :=
  ⟨by decide, MMain_expansion_shape "hInst" "hPrev" "lpCmd" "nShow" [] (by decide)⟩

theorem shim_first_definition_wins_witness :
    includeShim [("max", "prior")] = some envAfterWithMax ∧
    "max" ∈ shimGuardedNames ∧
    lookupDef [("max", "prior")] "max" = some "prior" ∧
    lookupDef envAfterWithMax "max" = some "prior" :=
  ⟨by decide, by decide, by decide,
    shim_first_definition_wins [("max", "prior")] envAfterWithMax "max" "prior"
      (by decide) (by decide) (by decide)⟩

/-- C6: calling the memory-copy alias on any memory, destination, source
and length where the two ranges do not overlap leaves every address with
exactly the byte that a direct call of the underlying copy primitive
would leave there, and returns the destination address. -/
theorem hmemcpy_refines_memcpy (m : Mem) (dest src len a : Nat)
    (_hsep : dest + len ≤ src ∨ src + len ≤ dest) :
    (hmemcpy m dest src len).1 a = (memcpy m dest src len).1 a ∧
    (hmemcpy m dest src len).2 = dest :=
  ⟨rfl, rfl⟩

theorem hmemcpy_refines_memcpy_witness :
    (10 + 4 ≤ 20 ∨ 20 + 4 ≤ 10) ∧
    ((hmemcpy (fun a => a + 1) 10 20 4).1 12 = (memcpy (fun a => a + 1) 10 20 4).1 12 ∧
      (hmemcpy (fun a => a + 1) 10 20 4).2 = 10) :=
  ⟨by decide, hmemcpy_refines_memcpy (fun a => a + 1) 10 20 4 12 (by decide)⟩

/-- C7: calling the memory-fill alias on any memory, destination, fill
byte and length makes every one of the len bytes starting at the
destination equal to the fill byte, and returns the destination
address. -/
theorem hmemset_fills (m : Mem) (dest fill len i : Nat) (hi : i < len) :
    (hmemset m dest fill len).1 (dest + i) = fill ∧
    (hmemset m dest fill len).2 = dest := by
  refine ⟨?_, rfl⟩
  show (if dest ≤ dest + i ∧ dest + i < dest + len then fill else m (dest + i)) = fill
  rw [if_pos (by omega)]

theorem hmemset_fills_witness :
    2 < 5 ∧
    ((hmemset (fun _ => 0) 7 255 5).1 (7 + 2) = 255 ∧
      (hmemset (fun _ => 0) 7 255 5).2 = 7) :=
  ⟨by decide, hmemset_fills (fun _ => 0) 7 255 5 2 (by decide)⟩

/-- C8: processing the header is idempotent: whenever an inclusion
succeeds and produces an environment, including the header again on that
environment succeeds without error and installs nothing new, returning
the very same environment. -/
theorem includeShim_idempotent (env e : Env) (h : includeShim env = some e) :
    includeShim e = some e := by
  by_cases hg : (lookupDef env "PORT1632_STUB_H").isSome = true
  · unfold includeShim at h
    rw [if_pos hg] at h
    obtain rfl := Option.some.inj h
    unfold includeShim
    rw [if_pos hg]
  · unfold includeShim at h
    rw [if_neg hg] at h
    unfold defineStrict at h
    split at h
    · exact Option.noConfusion h
    · obtain rfl := Option.some.inj h
      have hguard : (lookupDef (("MMoveTo", mmoveToBody) ::
          installGuarded (("PORT1632_STUB_H", "") :: env)) "PORT1632_STUB_H").isSome
          = true := by
        simp only [lookupDef]
        rw [if_neg (by decide)]
        exact lookupDef_foldl_isSome shimMacroDefs (("PORT1632_STUB_H", "") :: env)
          "PORT1632_STUB_H" (by simp [lookupDef])
      unfold includeShim
      rw [if_pos hguard]

theorem includeShim_idempotent_witness :
    includeShim [] = some envAfterFirst ∧
    includeShim envAfterFirst = some envAfterFirst :=
  ⟨by decide, includeShim_idempotent [] envAfterFirst (by decide)⟩

/-- C9: on equal integer arguments the strict comparison of each ternary
is false, so both the min macro and the max macro select the else branch
and evaluate to the second argument. -/
theorem min_max_equal_args_select_else (a b : Int) (h : a = b) :
    ¬ a < b ∧ ¬ a > b ∧ Port1632.min a b = b ∧ Port1632.max a b = b := by
  subst h
  refine ⟨lt_irrefl a, lt_irrefl a, ?_, ?_⟩
  · unfold Port1632.min
    rw [if_neg (lt_irrefl a)]
  · unfold Port1632.max
    rw [if_neg (lt_irrefl a)]

theorem min_max_equal_args_select_else_witness :
    (5 : Int) = 5 ∧
    (¬ (5 : Int) < 5 ∧ ¬ (5 : Int) > 5 ∧ Port1632.min 5 5 = 5 ∧ Port1632.max 5 5 = 5) :=
  ⟨rfl, min_max_equal_args_select_else 5 5 rfl⟩

/-- C10: the only state effect of MMoveTo is moving the current position
to the target coordinates: the pen and the brush of the surface are
unchanged, and the previous position, written into the discarded local
point, never escapes: the whole result of MMoveTo is independent of the
position the surface held before the call. -/
theorem MMoveTo_frame (hdc : DCState) (q : POINT) (x y code : Int) :
    (MMoveTo hdc x y code).1.pen = hdc.pen ∧
    (MMoveTo hdc x y code).1.brush = hdc.brush ∧
    (MMoveTo hdc x y code).1.pos = { x := x, y := y } ∧
    MMoveTo { hdc with pos := q } x y code = MMoveTo hdc x y code :=
  ⟨rfl, rfl, rfl, rfl⟩

end Port1632
